import Mathlib

/-!
Verification development for the `sync` repository (src/sync.py), a small
Streamlit utility that pairs LiDAR point-cloud text files with camera image
files by shared basename (frame identifier), previews them, and exports the
matched pairs either as a flat zip archive or as an HDF5 table store.

The Python source is shallowly embedded below.  Paths are Lean `String`s with
`/` as separator, matching the POSIX semantics of `os.path.basename` and
`os.path.splitext` used by the program.  Python `dict`s built by comprehension
are embedded as association lists with first-position, last-write-wins update,
matching CPython dict semantics.  The behavior of the third-party library
calls the program makes (`np.loadtxt`, `zipfile`, `cv2.imread`,
`pandas.DataFrame`/`HDFStore`) is embedded from those libraries' documented
semantics, restricted to the inputs this program can produce.
-/

/-- Equality on `Except` results is decidable when it is on both components
(used to evaluate the embedded fallible operations on concrete inputs). -/
instance {ε α : Type} [DecidableEq ε] [DecidableEq α] : DecidableEq (Except ε α) := by
  intro a b
  cases a <;> cases b
  case error.error x y =>
    exact if h : x = y then .isTrue (by rw [h]) else .isFalse (by simp [h])
  case error.ok x y => exact .isFalse (by simp)
  case ok.error x y => exact .isFalse (by simp)
  case ok.ok x y =>
    exact if h : x = y then .isTrue (by rw [h]) else .isFalse (by simp [h])

/-! ## String utilities (substring test, splitting, float parsing) -/

/-- `leadMatches needle hay` is true when `needle` is an initial segment of
`hay` (character-by-character comparison). -/
def leadMatches : List Char → List Char → Bool
  | [], _ => true
  | _ :: _, [] => false
  | a :: as, b :: bs => a == b && leadMatches as bs

/-- Auxiliary scan for the substring test: does `needle` occur starting at any
position of the haystack? -/
def containsSubAux (needle : List Char) : List Char → Bool
  | [] => leadMatches needle []
  | c :: rest => leadMatches needle (c :: rest) || containsSubAux needle rest

/-- Python's `needle in hay` substring test on strings. -/
def containsSub (hay needle : String) : Bool :=
  containsSubAux needle.data hay.data

/-- Auxiliary for `splitChar`: accumulates the current field (reversed). -/
def splitCharAux (sep : Char) : List Char → List Char → List String
  | [], acc => [String.mk acc.reverse]
  | c :: rest, acc =>
    if c = sep then String.mk acc.reverse :: splitCharAux sep rest []
    else splitCharAux sep rest (c :: acc)

/-- Python's `s.split(sep)` for a one-character separator: every occurrence of
`sep` delimits a field, so consecutive separators produce empty fields. -/
def splitChar (sep : Char) (s : String) : List String :=
  splitCharAux sep s.data []

/-- Value of a list of decimal digit characters. -/
def natOfDigits (cs : List Char) : ℕ :=
  cs.foldl (fun n c => 10 * n + (c.toNat - 48)) 0

/-- All characters are decimal digits. -/
def allDigits (cs : List Char) : Bool :=
  cs.all Char.isDigit

/-- Parse an unsigned decimal literal (`123`, `1.5`, `.5`, `2.`) into its
scaled integer value and number of fraction digits, so `"12.34"` gives
`(1234, 2)`, meaning `1234 / 10^2`.  Returns `none` if the characters are not
such a literal. -/
def parseDecimalParts (cs : List Char) : Option (ℕ × ℕ) :=
  let ip := cs.takeWhile (fun c => c ≠ '.')
  let rest := cs.dropWhile (fun c => c ≠ '.')
  match rest with
  | [] => if ip ≠ [] && allDigits ip then some (natOfDigits ip, 0) else none
  | _ :: fp =>
    if (ip ≠ [] || fp ≠ []) && allDigits ip && allDigits fp then
      some (natOfDigits ip * 10 ^ fp.length + natOfDigits fp, fp.length)
    else none

/-- Parse a signed decimal integer (exponent part of a float literal). -/
def parseExpInt (cs : List Char) : Option ℤ :=
  match cs with
  | '-' :: ds => if ds ≠ [] && allDigits ds then some (-(natOfDigits ds : ℤ)) else none
  | '+' :: ds => if ds ≠ [] && allDigits ds then some (natOfDigits ds : ℤ) else none
  | ds => if ds ≠ [] && allDigits ds then some (natOfDigits ds : ℤ) else none

/-- Parse a mantissa with an optional `e`/`E` exponent into `(m, f, e)`
standing for the value `m / 10^f · 10^e`. -/
def parseMantExp (cs : List Char) : Option (ℕ × ℕ × ℤ) :=
  let mant := cs.takeWhile (fun c => c ≠ 'e' ∧ c ≠ 'E')
  let rest := cs.dropWhile (fun c => c ≠ 'e' ∧ c ≠ 'E')
  match rest with
  | [] => (parseDecimalParts mant).map (fun mf => (mf.1, mf.2, (0 : ℤ)))
  | _ :: ex =>
    match parseDecimalParts mant, parseExpInt ex with
    | some mf, some e => some (mf.1, mf.2, e)
    | _, _ => none

/-- The rational value `±m · 10^(e−f)` of a parsed decimal literal, built with
a single `mkRat` so that it evaluates by kernel reduction. -/
def sciToRat (neg : Bool) (m : ℕ) (f : ℕ) (e : ℤ) : ℚ :=
  let sgn : ℤ := if neg then -1 else 1
  let shift : ℤ := e - (f : ℤ)
  if 0 ≤ shift then mkRat (sgn * (m : ℤ) * 10 ^ shift.toNat) 1
  else mkRat (sgn * (m : ℤ)) (10 ^ (-shift).toNat)

/-- Python's `float(field)` conversion used by `np.loadtxt`, restricted to
plain decimal literals with optional sign and exponent (the only field shapes
this program's data files contain); non-literals fail with `none`. -/
def parseRat (s : String) : Option ℚ :=
  match s.data with
  | '-' :: rest => (parseMantExp rest).map (fun t => sciToRat true t.1 t.2.1 t.2.2)
  | '+' :: rest => (parseMantExp rest).map (fun t => sciToRat false t.1 t.2.1 t.2.2)
  | cs => (parseMantExp cs).map (fun t => sciToRat false t.1 t.2.1 t.2.2)

/-! ## Path handling: `os.path.basename` and `os.path.splitext` -/

/-- `os.path.basename`: the part of the path after the last `/`. -/
def basename (p : String) : String :=
  String.mk ((p.data.reverse.takeWhile (fun c => c ≠ '/')).reverse)

/-- The root part of `os.path.splitext` on a name without directory
separators: drop the suffix starting at the last dot, unless every character
before that dot is itself a dot (so `.bashrc`-style names keep their dot). -/
def stripExt (name : String) : String :=
  let rev := name.data.reverse
  let extRev := rev.takeWhile (fun c => c ≠ '.')
  if extRev.length = rev.length then name
  else
    let rootRev := rev.drop (extRev.length + 1)
    if rootRev.any (fun c => c ≠ '.') then String.mk rootRev.reverse else name

/-- Frame identifier of a file path: `os.path.splitext(os.path.basename(f))[0]`,
the basename with directory and extension stripped (src/sync.py lines 92–93). -/
def frameKey (p : String) : String :=
  stripExt (basename p)

/-! ## Python dict embedding (insertion-ordered, last-write-wins update) -/

/-- CPython dict assignment `d[k] = v` on an association list: an existing
binding of `k` keeps its position but gets the new value; a new key is
appended at the end. -/
def insertLWW : List (String × String) → String → String → List (String × String)
  | [], k, v => [(k, v)]
  | e :: rest, k, v => if e.1 == k then (k, v) :: rest else e :: insertLWW rest k v

/-- The dict comprehension `{os.path.splitext(os.path.basename(f))[0]: f for f
in files}` of src/sync.py lines 92–93: mapping from frame identifier to path,
later files silently replacing earlier ones with the same key. -/
def buildBaseNames (files : List String) : List (String × String) :=
  files.foldl (fun m f => insertLWW m (frameKey f) f) []

/-- Python dict lookup `d[k]`; the default `""` is never reached when `k` is a
key of the dict (the only way the program uses it). -/
def dictGet (m : List (String × String)) (k : String) : String :=
  match m.find? (fun e => e.1 == k) with
  | some e => e.2
  | none => ""

/-- Keys of an embedded dict, in insertion order. -/
def dictKeys (m : List (String × String)) : List String :=
  m.map Prod.fst

/-- Sorting a list of strings in ascending lexicographic order, Python's
`sorted` on strings (both compare code points lexicographically). -/
def sortStrings (l : List String) : List String :=
  List.insertionSort (· ≤ ·) l

/-- `synchronize_data` of src/sync.py lines 90–97: build the two frame-key
dicts, intersect their key sets, and emit for each common key, in ascending
lexicographic order, the pair of the LiDAR path and the image path registered
under that key.  (`sorted(set(a) & set(b))` is the strictly ascending
enumeration of the common keys, which is exactly `sortStrings` of the
duplicate-free list of `a`'s keys that are also keys of `b`.) -/
def synchronize_data (lidar_files image_files : List String) : List (String × String) :=
  let lidar_base_names := buildBaseNames lidar_files
  let image_base_names := buildBaseNames image_files
  let common_keys := sortStrings
    ((dictKeys lidar_base_names).filter (fun k => (dictKeys image_base_names).contains k))
  common_keys.map (fun key => (dictGet lidar_base_names key, dictGet image_base_names key))

/-- The Frame Identifier key set of a sensor's file list. -/
def keySet (files : List String) : Finset String :=
  (files.map frameKey).toFinset

/-! ## Directory trees and `os.walk` -/

/-- A directory tree: the files directly contained in a directory, together
with its named subdirectories. -/
inductive FsTree : Type where
  | node : List String → List (String × FsTree) → FsTree

/-- File names directly inside the root of the tree. -/
def FsTree.files : FsTree → List String
  | .node fs _ => fs

/-- Named subdirectories of the root of the tree. -/
def FsTree.subdirs : FsTree → List (String × FsTree)
  | .node _ ds => ds

mutual

/-- `os.walk(root)` on the tree rooted at path `root`: the top-down list of
`(directory path, file names)` entries, the root directory first. -/
def walkFrom (root : String) : FsTree → List (String × List String)
  | .node files subs => (root, files) :: walkSubdirs root subs

/-- Walk each named subdirectory of the directory at path `root`, in order. -/
def walkSubdirs (root : String) : List (String × FsTree) → List (String × List String)
  | [] => []
  | (name, t) :: rest => walkFrom (root ++ "/" ++ name) t ++ walkSubdirs root rest

end

/-- The raw file accumulation shared by both locators of src/sync.py: for each
walked directory whose path passes `dirCond`, append `os.path.join(root, f)`
for each contained file `f` passing `fileCond`, in walk order. -/
def locateRaw (entries : List (String × List String))
    (dirCond : String → Bool) (fileCond : String → Bool) : List String :=
  entries.flatMap (fun e =>
    if dirCond e.1 then (e.2.filter fileCond).map (fun f => e.1 ++ "/" ++ f) else [])

/-- `find_velodyne_txt_files` of src/sync.py lines 42–49, over the directory
tree `fs` rooted at path `base_dir`: collect `.txt` files (not starting with
`._`) in directories whose path contains both `"velodyne_points"` and
`"data"`, returning the sorted list. -/
def find_velodyne_txt_files (base_dir : String) (fs : FsTree) : List String :=
  sortStrings (locateRaw (walkFrom base_dir fs)
    (fun root => containsSub root "velodyne_points" && containsSub root "data")
    (fun file => file.endsWith ".txt" && !(file.startsWith "._")))

/-- `find_image_files` of src/sync.py lines 54–61, over the directory tree
`fs` rooted at path `base_dir`: collect `.png`/`.jpg`/`.jpeg` files (matched
on the lower-cased name, not starting with `._`) in directories whose path
contains both `"image_02"` and `"data"`, returning the sorted list. -/
def find_image_files (base_dir : String) (fs : FsTree) : List String :=
  sortStrings (locateRaw (walkFrom base_dir fs)
    (fun root => containsSub root "image_02" && containsSub root "data")
    (fun file =>
      (file.toLower.endsWith ".png" || file.toLower.endsWith ".jpg"
        || file.toLower.endsWith ".jpeg") && !(file.startsWith "._")))

/-! ## `np.loadtxt` model (dimension-squeezing included) -/

/-- Shape of the array returned by `np.loadtxt` with default `ndmin=0`:
0-dimensional (single value), 1-dimensional (single row or single column is
squeezed to a vector), or a genuine 2-dimensional table. -/
inductive LoadtxtResult (α : Type) : Type where
  | arr0 (v : α)
  | arr1 (vs : List α)
  | arr2 (rows : List (List α))
deriving DecidableEq

/-- Parse one data line: split on the `' '` delimiter and convert every field;
`none` if any field is not numeric (numpy raises `ValueError`). -/
def parseLine (line : String) : Option (List ℚ) :=
  (splitChar ' ' line).mapM parseRat

/-- `np.loadtxt`'s final squeeze for `ndmin=0`: a parsed row block of shape
`(1,1)` becomes a scalar, `(1,n)` and `(n,1)` become vectors, anything else
stays a table. -/
def squeezeRows (rows : List (List ℚ)) : LoadtxtResult ℚ :=
  match rows with
  | [[v]] => .arr0 v
  | [r] => .arr1 r
  | _ =>
    if rows.all (fun r => r.length = 1) then .arr1 (rows.map (fun r => r.headD 0))
    else .arr2 rows

/-- `np.loadtxt(file, delimiter=' ')` on the lines of the file (documented
numpy behavior: blank lines are skipped; every field of every remaining line
must convert to a float and all lines must have the same number of fields,
otherwise a `ValueError` is raised; the resulting block is squeezed). -/
def loadtxtQ (lines : List String) : Except String (LoadtxtResult ℚ) :=
  let dataLines := lines.filter (fun l => l ≠ "")
  match dataLines.mapM parseLine with
  | none => .error "could not convert string to float"
  | some rows =>
    match rows with
    | [] => .ok (.arr1 [])
    | r0 :: rest =>
      if rest.all (fun r => r.length = r0.length) then .ok (squeezeRows (r0 :: rest))
      else .error "wrong number of columns"

/-- `load_lidar_from_txt` of src/sync.py lines 66–67, with the on-disk text
file represented by the line map `fsTxt` (missing file: `IOError`). -/
def load_lidar_from_txt (fsTxt : String → Option (List String)) (path : String) :
    Except String (LoadtxtResult ℚ) :=
  match fsTxt path with
  | none => .error ("No such file: " ++ path)
  | some lines => loadtxtQ lines

/-- The predicate of claim C4's spec sentence: the line splits into exactly
four numeric space-delimited fields. -/
def hasFourNumericFields (line : String) : Bool :=
  (splitChar ' ' line).length = 4 && (splitChar ' ' line).all (fun f => (parseRat f).isSome)

/-! ## Images, DataFrames and the `.h5` export branch -/

/-- A pixel of the underlying picture, by channel name. -/
structure Pixel : Type where
  r : ℚ
  g : ℚ
  b : ℚ
deriving DecidableEq

/-- `cv2.imread` decodes a picture into a height × width × 3 array whose
innermost axis is in blue-green-red order (documented OpenCV behavior). -/
def bgrOf (img : List (List Pixel)) : List (List (List ℚ)) :=
  img.map (fun row => row.map (fun p => [p.b, p.g, p.r]))

/-- `cv2.imread(path)` with the on-disk pictures represented by `fsImg`;
OpenCV returns `None` (here `none`) when the file cannot be decoded. -/
def cv2_imread (fsImg : String → Option (List (List Pixel))) (path : String) :
    Option (List (List (List ℚ))) :=
  (fsImg path).map bgrOf

/-- The `[:, :, ::-1]` slice of src/sync.py line 138: reverse the innermost
(channel) axis of a height × width × channel array. -/
def reverseChannels (a : List (List (List ℚ))) : List (List (List ℚ)) :=
  a.map (fun row => row.map List.reverse)

/-- The image produced for display by src/sync.py line 138:
`cv2.imread(path)[:, :, ::-1]`. -/
def visualizedImage (fsImg : String → Option (List (List Pixel))) (path : String) :
    Option (List (List (List ℚ))) :=
  (cv2_imread fsImg path).map reverseChannels

/-- A pandas `DataFrame`: column labels plus rectangular numeric rows. -/
structure DF : Type where
  cols : List String
  rows : List (List ℚ)
deriving DecidableEq

/-- `pd.DataFrame(arr, columns=cols)` on a loadtxt result: succeeds exactly
when the array is 2-dimensional with one column per label (pandas raises a
shape error for a 1-D array against several labels or a column-count
mismatch). -/
def dfFromLoadtxt (res : LoadtxtResult ℚ) (cols : List String) : Except String DF :=
  match res with
  | .arr2 rows =>
    if rows.all (fun r => r.length = cols.length) then .ok ⟨cols, rows⟩
    else .error "shape of passed values does not match columns"
  | _ => .error "shape of passed values does not match columns"

/-- The lidar DataFrame built for one pair by the `.h5` branch of src/sync.py
line 175: `pd.DataFrame(load_lidar_from_txt(f), columns=["x","y","z","intensity"])`. -/
def dfOfLidar (fsTxt : String → Option (List String)) (path : String) : Except String DF :=
  match load_lidar_from_txt fsTxt path with
  | .error e => .error e
  | .ok res => dfFromLoadtxt res ["x", "y", "z", "intensity"]

/-- `image_data.reshape(-1, 3)` on a height × width × 3 array: one row per
pixel, in row-major order (the innermost axis already has extent 3, so
reshaping concatenates the pixel triples). -/
def flattenTo3 (a : List (List (List ℚ))) : List (List ℚ) :=
  a.flatten

/-- The image DataFrame built for one pair by the `.h5` branch of src/sync.py
line 176: `pd.DataFrame(cv2.imread(f).reshape(-1, 3), columns=["R","G","B"])`.
No channel reordering happens on this path. -/
def imageDF (img : List (List Pixel)) : DF :=
  ⟨["R", "G", "B"], flattenTo3 (bgrOf img)⟩

/-- HDF5 group key `pair_{i}/sub` used by src/sync.py lines 175–176. -/
def pairKey (i : ℕ) (sub : String) : String :=
  "pair_" ++ toString i ++ "/" ++ sub

/-- The loop body of the `.h5` export branch (src/sync.py lines 172–176),
starting at pair ordinal `i`: for each pair, load the lidar table and the
image and `put` the two DataFrames under `pair_{i}/lidar` and
`pair_{i}/image`; any failure (parse error, shape error, unreadable image)
aborts the whole export with that error. -/
def h5ExportAux (fsTxt : String → Option (List String))
    (fsImg : String → Option (List (List Pixel))) (i : ℕ) :
    List (String × String) → Except String (List (String × DF))
  | [] => .ok []
  | (lidar_file, image_file) :: rest =>
    match dfOfLidar fsTxt lidar_file with
    | .error e => .error e
    | .ok df1 =>
      match fsImg image_file with
      | none => .error ("cannot reshape unreadable image: " ++ image_file)
      | some img =>
        match h5ExportAux fsTxt fsImg (i + 1) rest with
        | .error e => .error e
        | .ok restEntries =>
          .ok ((pairKey i "lidar", df1) :: (pairKey i "image", imageDF img) :: restEntries)

/-- The `.h5` export branch of src/sync.py lines 169–178: the HDF5 store
written for the synchronized pairs, as the ordered list of `(key, table)`
entries, or the error that aborted the export. -/
def h5Export (fsTxt : String → Option (List String))
    (fsImg : String → Option (List (List Pixel)))
    (pairs : List (String × String)) : Except String (List (String × DF)) :=
  h5ExportAux fsTxt fsImg 0 pairs

/-! ## The `.zip` export branch and archive extraction -/

/-- Raw file contents, as a byte list. -/
abbrev Bytes : Type := List ℕ

/-- The `.zip` export branch of src/sync.py lines 160–166: for each pair, in
order, `zf.write(lidar_file, basename(lidar_file))` then
`zf.write(image_file, basename(image_file))`.  Python's `zipfile` appends an
entry per write — a repeated arcname yields a second entry with the same name,
not an overwrite.  A missing source file raises, aborting the export. -/
def zipBuild (fsBytes : String → Option Bytes) :
    List (String × String) → Except String (List (String × Bytes))
  | [] => .ok []
  | (lidar_file, image_file) :: rest =>
    match fsBytes lidar_file with
    | none => .error ("No such file: " ++ lidar_file)
    | some lb =>
      match fsBytes image_file with
      | none => .error ("No such file: " ++ image_file)
      | some ib =>
        match zipBuild fsBytes rest with
        | .error e => .error e
        | .ok restEntries =>
          .ok ((basename lidar_file, lb) :: (basename image_file, ib) :: restEntries)

/-- `ZipFile.extractall` (and equally `ZipFile.read` by name): entries are
processed in archive order and each write lands at its entry name, so the
resulting on-disk content of a name is that of the **last** entry bearing it. -/
def extractAll (archive : List (String × Bytes)) (name : String) : Option Bytes :=
  ((archive.filter (fun e => e.1 == name)).getLast?).map Prod.snd

/-- All file paths referenced by a pair list, in the order the zip branch
writes them (lidar then image, pair by pair). -/
def refPaths (pairs : List (String × String)) : List String :=
  pairs.flatMap (fun pr => [pr.1, pr.2])

/-! ## The export button handler (src/sync.py lines 153–181) -/

/-- The two entries of the export-format selectbox. -/
inductive ExportFormat : Type where
  | zipFmt
  | h5Fmt
deriving DecidableEq

/-- A fully built downloadable artifact. -/
inductive ExportArtifact : Type where
  | zipArtifact (entries : List (String × Bytes))
  | h5Artifact (entries : List (String × DF))
deriving DecidableEq

/-- What the export button handler leaves on screen: the "no synchronized
data" error, a download button holding a finished artifact, or the export
error message (no partial artifact). -/
inductive ExportOutcome : Type where
  | errorNoData
  | offerDownload (fileName : String) (artifact : ExportArtifact)
  | errorExport (msg : String)
deriving DecidableEq

/-- Building the selected artifact (the body of the `try` block). -/
def buildArtifact (fmt : ExportFormat) (fsBytes : String → Option Bytes)
    (fsTxt : String → Option (List String)) (fsImg : String → Option (List (List Pixel)))
    (synced : List (String × String)) : Except String ExportArtifact :=
  match fmt with
  | .zipFmt => (zipBuild fsBytes synced).map ExportArtifact.zipArtifact
  | .h5Fmt => (h5Export fsTxt fsImg synced).map ExportArtifact.h5Artifact

/-- The export button handler of src/sync.py lines 155–181: no data is an
error state; otherwise the artifact is built inside a `try`, and only a fully
built artifact reaches `st.download_button` — any exception is caught and
reported via `st.error`, with nothing offered for download. -/
def exportButtonHandler (fmt : ExportFormat) (fsBytes : String → Option Bytes)
    (fsTxt : String → Option (List String)) (fsImg : String → Option (List (List Pixel)))
    (synced : List (String × String)) : ExportOutcome :=
  if synced.isEmpty then .errorNoData
  else
    match buildArtifact fmt fsBytes fsTxt fsImg synced with
    | .ok a =>
      .offerDownload
        (match fmt with
         | .zipFmt => "synced_data.zip"
         | .h5Fmt => "synced_data.h5") a
    | .error e => .errorExport ("Error exporting data: " ++ e)

/-! ## Lemmas for the `.zip` export branch -/

/-- A successful zip build requires every referenced file to be readable, and
the archive is exactly one entry per referenced path, in write order, under
the path's base filename. -/
theorem zipBuild_ok_spec (fsBytes : String → Option Bytes) :
    ∀ (pairs : List (String × String)) (arch : List (String × Bytes)),
      zipBuild fsBytes pairs = .ok arch →
      (∀ p ∈ refPaths pairs, ∃ b, fsBytes p = some b) ∧
      arch = (refPaths pairs).map (fun p => (basename p, (fsBytes p).getD [])) := by
  intro pairs
  induction pairs with
  | nil =>
    intro arch h
    injection h with h
    subst h
    exact ⟨by simp [refPaths], rfl⟩
  | cons pr rest ih =>
    intro arch h
    rcases pr with ⟨lf, imf⟩
    rw [zipBuild] at h
    rcases hlf : fsBytes lf with - | lb
    · rw [hlf] at h
      exact Except.noConfusion h
    · rw [hlf] at h
      rcases himf : fsBytes imf with - | ib
      · rw [himf] at h
        exact Except.noConfusion h
      · rw [himf] at h
        rcases hrest : zipBuild fsBytes rest with e | restA
        · rw [hrest] at h
          exact Except.noConfusion h
        · rw [hrest] at h
          injection h with h
          obtain ⟨hpresent, harch⟩ := ih restA hrest
          have href : refPaths ((lf, imf) :: rest) = lf :: imf :: refPaths rest := rfl
          constructor
          · intro p hp
            rw [href] at hp
            rcases List.mem_cons.mp hp with rfl | hp2
            · exact ⟨lb, hlf⟩
            · rcases List.mem_cons.mp hp2 with rfl | hp3
              · exact ⟨ib, himf⟩
              · exact hpresent p hp3
          · rw [← h, href, List.map_cons, List.map_cons, hlf, himf, harch]
            rfl

/-- Extraction from the archive of a successful zip build: looking up a name
yields the bytes of the **last** referenced path whose base filename is that
name (`extractall` lets later entries overwrite earlier ones on disk). -/
theorem zipBuild_extractAll (fsBytes : String → Option Bytes)
    (pairs : List (String × String)) (arch : List (String × Bytes))
    (h : zipBuild fsBytes pairs = .ok arch) (name : String) :
    extractAll arch name =
      (((refPaths pairs).filter (fun p => basename p == name)).getLast?).bind fsBytes := by
  obtain ⟨hpresent, harch⟩ := zipBuild_ok_spec fsBytes pairs arch h
  subst harch
  rw [extractAll, List.filter_map]
  have hpred : ((fun e : String × Bytes => e.1 == name) ∘
      (fun p => (basename p, (fsBytes p).getD []))) = (fun p => basename p == name) := rfl
  rw [hpred]
  rcases hlast : ((refPaths pairs).filter (fun p => basename p == name)).getLast? with - | p
  · have : (((refPaths pairs).filter (fun p => basename p == name)).map
        (fun p => (basename p, (fsBytes p).getD []))).getLast? = none := by
      rw [List.getLast?_eq_none_iff] at hlast ⊢
      rw [hlast]
      rfl
    rw [this]
    rfl
  · have hmem : p ∈ (refPaths pairs).filter (fun p => basename p == name) :=
      List.mem_of_mem_getLast? hlast
    obtain ⟨b, hb⟩ := hpresent p (List.mem_filter.mp hmem).1
    have hmap : (((refPaths pairs).filter (fun p => basename p == name)).map
        (fun p => (basename p, (fsBytes p).getD []))).getLast? =
        some (basename p, (fsBytes p).getD []) := by
      rw [List.getLast?_eq_head?_reverse, ← List.map_reverse, List.head?_map,
        ← List.getLast?_eq_head?_reverse, hlast]
      rfl
    rw [hmap]
    simp [hb]

/-- Concrete byte store for the zip counterexamples and witnesses: two LiDAR
files in different directories share the base filename `0000000001.txt` but
have different contents. -/
def cBytes : String → Option Bytes :=
  fun p =>
    if p = "a/0000000001.txt" then some [1]
    else if p = "b/0000000001.txt" then some [2]
    else if p = "a/0000000001.png" then some [3]
    else if p = "b/0000000002.png" then some [4]
    else none

/-- Concrete pair list whose two LiDAR paths collide on base filename. -/
def cPairsZip : List (String × String) :=
  [("a/0000000001.txt", "a/0000000001.png"), ("b/0000000001.txt", "b/0000000002.png")]

/-- The archive the zip branch builds for `cPairsZip`: note the two distinct
entries named `0000000001.txt`. -/
def cArch : List (String × Bytes) :=
  [("0000000001.txt", [1]), ("0000000001.png", [3]),
   ("0000000001.txt", [2]), ("0000000002.png", [4])]

/-- Counterexample to C7 as stated: with two referenced files sharing a base
filename, the built archive holds **two** entries with that name (Python's
`zipfile` appends a duplicate entry rather than overwriting), so "exactly one
entry with that name survives in the output archive" is false. -/
theorem zip_duplicate_names_two_entries :
    zipBuild cBytes cPairsZip = Except.ok cArch ∧
    (cArch.map Prod.fst).count "0000000001.txt" = 2 ∧
    ¬ (cArch.map Prod.fst).count "0000000001.txt" = 1 := by
  refine ⟨by decide, by decide, by decide⟩

/-- **C7 (amended).** A successful raw export archives every referenced file
under its base filename with directory structure discarded, one entry per
reference in write order — a duplicated base filename yields multiple archive
entries, not an in-archive overwrite; name-based extraction resolves a name
to the **later-written** entry, so only the later content survives
extraction. -/
theorem zip_export_entries_extraction (fsBytes : String → Option Bytes)
    (pairs : List (String × String)) (arch : List (String × Bytes))
    (h : zipBuild fsBytes pairs = .ok arch) :
    arch.map Prod.fst = (refPaths pairs).map basename ∧
    (∀ p ∈ refPaths pairs, ∃ b, fsBytes p = some b ∧ (basename p, b) ∈ arch) ∧
    (∀ name, extractAll arch name =
      (((refPaths pairs).filter (fun p => basename p == name)).getLast?).bind fsBytes) := by
  obtain ⟨hpresent, harch⟩ := zipBuild_ok_spec fsBytes pairs arch h
  refine ⟨?_, ?_, zipBuild_extractAll fsBytes pairs arch h⟩
  · subst harch
    rw [List.map_map]
    rfl
  · intro p hp
    obtain ⟨b, hb⟩ := hpresent p hp
    refine ⟨b, hb, ?_⟩
    subst harch
    apply List.mem_map.mpr
    refine ⟨p, hp, ?_⟩
    simp [hb]

/-- Witness for C7 (amended), at the colliding inputs: extraction of the
duplicated name resolves to the later-referenced file's bytes. -/
theorem zip_export_entries_extraction_witness :
    extractAll cArch "0000000001.txt" =
      (((refPaths cPairsZip).filter
        (fun p => basename p == "0000000001.txt")).getLast?).bind cBytes :=
  (zip_export_entries_extraction cBytes cPairsZip cArch (by decide)).2.2 "0000000001.txt"

/-- Counterexample to C8 as stated: after exporting `cPairsZip` and
extracting, the file `a/0000000001.txt` (bytes `[1]`) is **not** recovered —
its flattened name holds the later file's bytes `[2]` — so "extraction yields
a byte-identical copy of every referenced file" is false. -/
theorem zip_roundtrip_collision_loses_file :
    zipBuild cBytes cPairsZip = Except.ok cArch ∧
    cBytes "a/0000000001.txt" = some [1] ∧
    extractAll cArch (basename "a/0000000001.txt") = some [2] ∧
    ¬ extractAll cArch (basename "a/0000000001.txt") = cBytes "a/0000000001.txt" := by
  refine ⟨by decide, by decide, by decide, by decide⟩

/-- **C8 (amended).** Round-trip holds per name for the **last** reference:
for every referenced file that is the last-referenced among those sharing its
base filename (in particular every file when base filenames are unique),
extracting the exported archive yields exactly that file's original bytes;
an earlier file whose base filename collides with a later one is instead
replaced by the later file's bytes. -/
theorem zip_roundtrip_last_reference (fsBytes : String → Option Bytes)
    (pairs : List (String × String)) (arch : List (String × Bytes)) (p : String)
    (h : zipBuild fsBytes pairs = .ok arch) (hp : p ∈ refPaths pairs)
    (hlast : ((refPaths pairs).filter (fun q => basename q == basename p)).getLast? = some p) :
    extractAll arch (basename p) = fsBytes p ∧ ∃ b, fsBytes p = some b := by
  obtain ⟨hpresent, -⟩ := zipBuild_ok_spec fsBytes pairs arch h
  refine ⟨?_, hpresent p hp⟩
  rw [zipBuild_extractAll fsBytes pairs arch h, hlast]
  rfl

/-- Witness for C8 (amended): the later colliding file `b/0000000001.txt`
round-trips byte-identically. -/
theorem zip_roundtrip_last_reference_witness :
    extractAll cArch (basename "b/0000000001.txt") = cBytes "b/0000000001.txt" ∧
    ∃ b, cBytes "b/0000000001.txt" = some b :=
  zip_roundtrip_last_reference cBytes cPairsZip cArch "b/0000000001.txt"
    (by decide) (by decide) (by decide)

/-! ## Lemmas about the dict embedding -/

theorem mem_dictKeys_insertLWW (m : List (String × String)) (k0 v k : String) :
    k ∈ dictKeys (insertLWW m k0 v) ↔ k = k0 ∨ k ∈ dictKeys m := by
  induction m with
  | nil => simp [insertLWW, dictKeys]
  | cons e rest ih =>
    by_cases h : e.1 = k0
    · simp [insertLWW, h, dictKeys]
    · simp only [insertLWW, beq_iff_eq, h, if_false, dictKeys, List.map_cons, List.mem_cons]
      rw [show (insertLWW rest k0 v).map Prod.fst = dictKeys (insertLWW rest k0 v) from rfl, ih]
      constructor
      · rintro (h1 | h2 | h3) <;> tauto
      · rintro (h1 | h2 | h3) <;> tauto

theorem nodup_dictKeys_insertLWW (m : List (String × String)) (k0 v : String)
    (h : (dictKeys m).Nodup) : (dictKeys (insertLWW m k0 v)).Nodup := by
  induction m with
  | nil => simp [insertLWW, dictKeys]
  | cons e rest ih =>
    simp only [dictKeys, List.map_cons, List.nodup_cons] at h
    by_cases he : e.1 = k0
    · simp only [insertLWW, beq_iff_eq, he, if_true, dictKeys, List.map_cons, List.nodup_cons]
      exact ⟨he ▸ h.1, h.2⟩
    · simp only [insertLWW, beq_iff_eq, he, if_false, dictKeys, List.map_cons, List.nodup_cons]
      refine ⟨?_, ih h.2⟩
      rw [show (insertLWW rest k0 v).map Prod.fst = dictKeys (insertLWW rest k0 v) from rfl,
        mem_dictKeys_insertLWW]
      rintro (h1 | h2)
      · exact he h1
      · exact h.1 h2

theorem find?_insertLWW (m : List (String × String)) (k0 v k : String) :
    (insertLWW m k0 v).find? (fun e => e.1 == k) =
      if k = k0 then some (k0, v) else m.find? (fun e => e.1 == k) := by
  induction m with
  | nil =>
    by_cases h : k = k0
    · subst h
      simp [insertLWW, List.find?]
    · have hbe : (k0 == k) = false := beq_eq_false_iff_ne.mpr (Ne.symm h)
      simp [insertLWW, List.find?, hbe, h]
  | cons e rest ih =>
    by_cases he : e.1 = k0
    · have hbe : (e.1 == k0) = true := beq_iff_eq.mpr he
      by_cases hk : k = k0
      · subst hk
        simp [insertLWW, hbe, List.find?]
      · have h1 : (k0 == k) = false := beq_eq_false_iff_ne.mpr (Ne.symm hk)
        have h2 : (e.1 == k) = false := by
          rw [he]; exact h1
        simp [insertLWW, hbe, List.find?, h1, h2, hk]
    · have hbe : (e.1 == k0) = false := beq_eq_false_iff_ne.mpr he
      by_cases hek : e.1 = k
      · have hk0 : ¬ k = k0 := fun h => he (hek.trans h)
        have h2 : (e.1 == k) = true := beq_iff_eq.mpr hek
        simp [insertLWW, hbe, List.find?, h2, hk0]
      · have h2 : (e.1 == k) = false := beq_eq_false_iff_ne.mpr hek
        simp [insertLWW, hbe, List.find?, h2, ih]

theorem mem_dictKeys_buildBaseNamesAux (files : List String) (m : List (String × String))
    (k : String) :
    k ∈ dictKeys (files.foldl (fun m f => insertLWW m (frameKey f) f) m) ↔
      k ∈ dictKeys m ∨ k ∈ files.map frameKey := by
  induction files generalizing m with
  | nil => simp
  | cons f fs ih =>
    simp only [List.foldl_cons, List.map_cons, List.mem_cons]
    rw [ih, mem_dictKeys_insertLWW]
    tauto

theorem mem_dictKeys_buildBaseNames (files : List String) (k : String) :
    k ∈ dictKeys (buildBaseNames files) ↔ k ∈ files.map frameKey := by
  rw [buildBaseNames, mem_dictKeys_buildBaseNamesAux]
  simp [dictKeys]

theorem nodup_dictKeys_buildBaseNamesAux (files : List String) (m : List (String × String))
    (h : (dictKeys m).Nodup) :
    (dictKeys (files.foldl (fun m f => insertLWW m (frameKey f) f) m)).Nodup := by
  induction files generalizing m with
  | nil => exact h
  | cons f fs ih => exact ih _ (nodup_dictKeys_insertLWW _ _ _ h)

theorem nodup_dictKeys_buildBaseNames (files : List String) :
    (dictKeys (buildBaseNames files)).Nodup := by
  apply nodup_dictKeys_buildBaseNamesAux
  simp [dictKeys]

theorem find?_buildBaseNamesAux (files : List String) (m : List (String × String)) (k : String) :
    (files.foldl (fun m f => insertLWW m (frameKey f) f) m).find? (fun e => e.1 == k) =
      ((files.reverse.find? (fun f => frameKey f == k)).map (fun f => (k, f))).or
        (m.find? (fun e => e.1 == k)) := by
  induction files generalizing m with
  | nil => simp
  | cons f fs ih =>
    simp only [List.foldl_cons, List.reverse_cons, List.find?_append]
    rw [ih]
    rcases hfs : fs.reverse.find? (fun f => frameKey f == k) with - | g
    · simp only [Option.map_none, Option.none_or]
      rw [find?_insertLWW]
      by_cases hk : frameKey f = k
      · have hbe : (frameKey f == k) = true := beq_iff_eq.mpr hk
        simp [List.find?, hbe, hk]
      · have hbe : (frameKey f == k) = false := beq_eq_false_iff_ne.mpr hk
        have hk2 : ¬ k = frameKey f := fun h => hk h.symm
        simp [List.find?, hbe, hk2]
    · simp

/-- The last list element satisfying a predicate, via `getLast?` of `filter`,
is the first match in the reversed list. -/
theorem getLast?_filter_eq_find?_reverse {α : Type} (p : α → Bool) (l : List α) :
    (l.filter p).getLast? = l.reverse.find? p := by
  induction l with
  | nil => rfl
  | cons a l ih =>
    simp only [List.reverse_cons, List.find?_append]
    by_cases h : p a
    · rcases hl : l.filter p with - | ⟨b, fl⟩
      · simp [List.filter_cons, h, hl, List.find?, ← ih]
      · rw [List.filter_cons, if_pos h, hl, List.getLast?_cons_cons, ← hl, ih]
        have : (l.reverse.find? p).isSome := by
          rw [List.find?_isSome]
          refine ⟨b, ?_, ?_⟩
          · rw [List.mem_reverse]
            have : b ∈ l.filter p := by rw [hl]; exact List.mem_cons_self b fl
            exact (List.mem_filter.mp this).1
          · have : b ∈ l.filter p := by rw [hl]; exact List.mem_cons_self b fl
            exact (List.mem_filter.mp this).2
        rcases hf : l.reverse.find? p with - | g
        · rw [hf] at this; simp at this
        · simp
    · simp only [List.filter_cons, h, Bool.false_eq_true, if_false]
      rw [ih]
      rcases hf : l.reverse.find? p with - | g
      · simp [List.find?, h]
      · simp

/-- Core last-write-wins lemma: looking up key `k` in the frame-identifier
dict finds the pair `(k, f)` for the **last** file `f` in the input list whose
frame key is `k`, and nothing when no file has that key. -/
theorem find?_buildBaseNames (files : List String) (k : String) :
    (buildBaseNames files).find? (fun e => e.1 == k) =
      ((files.filter (fun f => frameKey f == k)).getLast?).map (fun f => (k, f)) := by
  rw [buildBaseNames, find?_buildBaseNamesAux, getLast?_filter_eq_find?_reverse]
  simp

/-- **C3.** For every input list in which paths share a frame identifier, the
sensor's key→path dict retains exactly the last-occurring path of the input
order for each key, silently replacing every earlier one: the binding found
for key `k` is `(k, f)` where `f` is the last element of the input list whose
frame key is `k` (and no binding exists when no file has key `k`).  The
mapping construction is total — no error or warning is possible. -/
theorem buildBaseNames_last_write_wins (files : List String) (k : String) :
    (buildBaseNames files).find? (fun e => e.1 == k) =
      ((files.filter (fun f => frameKey f == k)).getLast?).map (fun f => (k, f)) :=
  find?_buildBaseNames files k

/-! ## Lemmas for the synchronizer -/

/-- The common keys of the two dicts, before sorting: the keys of the LiDAR
dict that are also keys of the image dict (the embedding of
`set(lidar_keys) & set(image_keys)`). -/
def commonKeysRaw (P I : List String) : List String :=
  (dictKeys (buildBaseNames P)).filter (fun k => (dictKeys (buildBaseNames I)).contains k)

theorem synchronize_data_eq (P I : List String) :
    synchronize_data P I = (sortStrings (commonKeysRaw P I)).map
      (fun key => (dictGet (buildBaseNames P) key, dictGet (buildBaseNames I) key)) := rfl

theorem mem_commonKeysRaw (P I : List String) (k : String) :
    k ∈ commonKeysRaw P I ↔ k ∈ P.map frameKey ∧ k ∈ I.map frameKey := by
  rw [commonKeysRaw, List.mem_filter, mem_dictKeys_buildBaseNames]
  constructor
  · rintro ⟨h1, h2⟩
    exact ⟨h1, (mem_dictKeys_buildBaseNames I k).mp (List.elem_iff.mp h2)⟩
  · rintro ⟨h1, h2⟩
    exact ⟨h1, List.elem_iff.mpr ((mem_dictKeys_buildBaseNames I k).mpr h2)⟩

theorem nodup_commonKeysRaw (P I : List String) : (commonKeysRaw P I).Nodup :=
  (nodup_dictKeys_buildBaseNames P).filter _

theorem toFinset_commonKeysRaw (P I : List String) :
    (commonKeysRaw P I).toFinset = keySet P ∩ keySet I := by
  ext k
  rw [List.mem_toFinset, mem_commonKeysRaw, Finset.mem_inter, keySet, keySet,
    List.mem_toFinset, List.mem_toFinset]

/-- Looking up a key that the file list does produce returns a file whose
frame key is that key. -/
theorem dictGet_buildBaseNames_key (files : List String) (k : String)
    (h : k ∈ files.map frameKey) : frameKey (dictGet (buildBaseNames files) k) = k := by
  obtain ⟨f, hf, hfk⟩ := List.mem_map.mp h
  have hmemf : f ∈ files.filter (fun f => frameKey f == k) :=
    List.mem_filter.mpr ⟨hf, beq_iff_eq.mpr hfk⟩
  have hne : files.filter (fun f => frameKey f == k) ≠ [] := by
    intro hnil
    rw [hnil] at hmemf
    exact List.not_mem_nil f hmemf
  rcases hlast : (files.filter (fun f => frameKey f == k)).getLast? with - | g
  · exact absurd (List.getLast?_eq_none_iff.mp hlast) hne
  · have hg : g ∈ files.filter (fun f => frameKey f == k) := List.mem_of_mem_getLast? hlast
    have hgk : frameKey g = k := beq_iff_eq.mp (List.mem_filter.mp hg).2
    rw [dictGet, find?_buildBaseNames, hlast]
    exact hgk

/-- **C1.** For every list of point-cloud paths `P` and image paths `I`,
`synchronize_data P I` has length `|keySet P ∩ keySet I|`, its sequence of
frame keys is strictly ascending lexicographically, and disjoint key sets
(in particular an empty input list) give the empty result. -/
theorem synchronize_data_length_sorted_disjoint (P I : List String) :
    (synchronize_data P I).length = (keySet P ∩ keySet I).card ∧
    List.Sorted (· < ·) ((synchronize_data P I).map (fun pr => frameKey pr.1)) ∧
    (Disjoint (keySet P) (keySet I) → synchronize_data P I = []) := by
  have hperm : (sortStrings (commonKeysRaw P I)).Perm (commonKeysRaw P I) :=
    List.perm_insertionSort _ _
  have hnodup_common : (sortStrings (commonKeysRaw P I)).Nodup :=
    hperm.symm.nodup (nodup_commonKeysRaw P I)
  have hkeys : (synchronize_data P I).map (fun pr => frameKey pr.1) =
      sortStrings (commonKeysRaw P I) := by
    rw [synchronize_data_eq, List.map_map]
    have hcongr : ∀ k ∈ sortStrings (commonKeysRaw P I),
        ((fun pr : String × String => frameKey pr.1) ∘
          (fun key => (dictGet (buildBaseNames P) key, dictGet (buildBaseNames I) key))) k
          = id k := by
      intro k hk
      have hk2 : k ∈ commonKeysRaw P I := hperm.mem_iff.mp hk
      exact dictGet_buildBaseNames_key P k ((mem_commonKeysRaw P I k).mp hk2).1
    rw [List.map_congr_left hcongr, List.map_id]
  refine ⟨?_, ?_, ?_⟩
  · rw [synchronize_data_eq, List.length_map, hperm.length_eq,
      ← List.toFinset_card_of_nodup (nodup_commonKeysRaw P I), toFinset_commonKeysRaw]
  · rw [hkeys]
    have hle : List.Sorted (· ≤ ·) (sortStrings (commonKeysRaw P I)) :=
      List.sorted_insertionSort _ _
    exact (List.Pairwise.and hle hnodup_common).imp (fun h => lt_of_le_of_ne h.1 h.2)
  · intro hd
    have hraw : commonKeysRaw P I = [] := by
      rw [List.eq_nil_iff_forall_not_mem]
      intro k hk
      obtain ⟨h1, h2⟩ := (mem_commonKeysRaw P I k).mp hk
      exact Finset.disjoint_left.mp hd (List.mem_toFinset.mpr h1) (List.mem_toFinset.mpr h2)
    rw [synchronize_data_eq, hraw]
    rfl

/-- Witness for C1, at concrete disjoint inputs: point-cloud keys
`{"0000000001"}` and image keys `{"0000000002"}` are disjoint, so the result
is empty. -/
theorem synchronize_data_disjoint_witness :
    synchronize_data ["lidar_temp/velodyne_points/data/0000000001.txt"]
        ["image_temp/image_02/data/0000000002.png"] = [] :=
  (synchronize_data_length_sorted_disjoint
      ["lidar_temp/velodyne_points/data/0000000001.txt"]
      ["image_temp/image_02/data/0000000002.png"]).2.2 (by decide)

/-! ## Lemmas about `mapM` over `Option` -/

theorem mapM_option_eq_none_iff {α β : Type} (f : α → Option β) (l : List α) :
    l.mapM f = none ↔ ∃ a ∈ l, f a = none := by
  induction l with
  | nil =>
    rw [List.mapM_nil]
    simp
  | cons a l ih =>
    rw [List.mapM_cons]
    constructor
    · intro h
      rcases ha : f a with - | b
      · exact ⟨a, List.mem_cons_self a l, ha⟩
      · rcases hm : l.mapM f with - | bs
        · obtain ⟨x, hx, hfx⟩ := ih.mp hm
          exact ⟨x, List.mem_cons_of_mem a hx, hfx⟩
        · rw [ha, hm] at h
          simp at h
    · rintro ⟨x, hx, hfx⟩
      rcases List.mem_cons.mp hx with rfl | hx2
      · rw [hfx]
        rfl
      · rw [ih.mpr ⟨x, hx2, hfx⟩]
        cases hfa : f a <;> rfl

theorem mapM_option_eq_some {α β : Type} (f : α → Option β) :
    ∀ (l : List α) (bs : List β), l.mapM f = some bs →
      (∀ a ∈ l, ∃ b, f a = some b) ∧ bs.length = l.length ∧
      (∀ b ∈ bs, ∃ a ∈ l, f a = some b) := by
  intro l
  induction l with
  | nil =>
    intro bs h
    rw [List.mapM_nil] at h
    cases h
    simp
  | cons a l ih =>
    intro bs h
    rw [List.mapM_cons] at h
    rcases ha : f a with - | b
    · rw [ha] at h
      simp at h
    · rw [ha] at h
      simp only [Option.bind_eq_bind, Option.some_bind] at h
      rcases hm : l.mapM f with - | bs2
      · rw [hm] at h
        simp at h
      · rw [hm] at h
        simp only [Option.some_bind, Option.pure_def, Option.some_inj] at h
        obtain ⟨h1, h2, h3⟩ := ih bs2 hm
        subst h
        refine ⟨?_, by simp [h2], ?_⟩
        · intro x hx
          rcases List.mem_cons.mp hx with h | h
          · exact ⟨b, h ▸ ha⟩
          · exact h1 x h
        · intro y hy
          rcases List.mem_cons.mp hy with h | h
          · exact ⟨a, List.mem_cons_self a l, h ▸ ha⟩
          · obtain ⟨x, hx, hfx⟩ := h3 y h
            exact ⟨x, List.mem_cons_of_mem a hx, hfx⟩

theorem mapM_option_isSome {α β : Type} (f : α → Option β) (l : List α)
    (h : ∀ a ∈ l, ∃ b, f a = some b) : ∃ bs, l.mapM f = some bs := by
  induction l with
  | nil => exact ⟨[], List.mapM_nil f⟩
  | cons a l ih =>
    obtain ⟨b, hb⟩ := h a (List.mem_cons_self a l)
    obtain ⟨bs, hbs⟩ := ih (fun x hx => h x (List.mem_cons_of_mem a hx))
    refine ⟨b :: bs, ?_⟩
    rw [List.mapM_cons, hb, hbs]
    rfl

/-! ## Lemmas about `np.loadtxt` -/

theorem loadtxtQ_eq (lines : List String) :
    loadtxtQ lines =
      (match (lines.filter (fun l => l ≠ "")).mapM parseLine with
       | none => .error "could not convert string to float"
       | some rows =>
         match rows with
         | [] => .ok (.arr1 [])
         | r0 :: rest =>
           if rest.all (fun r => r.length = r0.length) then .ok (squeezeRows (r0 :: rest))
           else .error "wrong number of columns") := rfl

/-- **C4 (amended).** Reading a point-cloud text file fails with a parse
error exactly when a non-blank line has a field that does not convert to a
float, or the non-blank lines do not all have the same number of fields
(numpy skips blank lines and accepts any consistent column count, not just
four); it succeeds, in particular, whenever every line has exactly four
numeric space-delimited fields. -/
theorem loadtxt_error_characterization (fsTxt : String → Option (List String))
    (path : String) (lines : List String) (hfile : fsTxt path = some lines) :
    ((∃ e, load_lidar_from_txt fsTxt path = .error e) ↔
      (∃ l ∈ lines.filter (fun l => l ≠ ""), parseLine l = none) ∨
      (∃ r0 rows, (lines.filter (fun l => l ≠ "")).mapM parseLine = some (r0 :: rows) ∧
        ∃ r ∈ rows, r.length ≠ r0.length)) ∧
    ((∀ l ∈ lines, hasFourNumericFields l = true) →
      ∃ res, load_lidar_from_txt fsTxt path = Except.ok res) := by
  have hload : load_lidar_from_txt fsTxt path = loadtxtQ lines := by
    rw [load_lidar_from_txt, hfile]
  constructor
  · rw [hload]
    rcases hm : (lines.filter (fun l => l ≠ "")).mapM parseLine with - | rows
    · constructor
      · intro _
        exact Or.inl ((mapM_option_eq_none_iff _ _).mp hm)
      · intro _
        exact ⟨"could not convert string to float", by rw [loadtxtQ_eq, hm]⟩
    · have hnofail : ¬ ∃ l ∈ lines.filter (fun l => l ≠ ""), parseLine l = none := by
        rintro ⟨l, hl, hnone⟩
        obtain ⟨b, hb⟩ := (mapM_option_eq_some _ _ _ hm).1 l hl
        rw [hnone] at hb
        exact Option.noConfusion hb
      rcases rows with - | ⟨r0, rest⟩
      · constructor
        · rintro ⟨e, he⟩
          rw [loadtxtQ_eq, hm] at he
          simp at he
        · rintro (h | ⟨r0, rows2, hsome, -⟩)
          · exact absurd h hnofail
          · simp at hsome
      · by_cases hall : rest.all (fun r => r.length = r0.length)
        · constructor
          · rintro ⟨e, he⟩
            rw [loadtxtQ_eq, hm] at he
            simp [hall] at he
          · rintro (h | ⟨r0b, rows2, hsome, r, hr, hlen⟩)
            · exact absurd h hnofail
            · injection hsome with hsome
              injection hsome with h1 h2
              subst h1
              subst h2
              rw [List.all_eq_true] at hall
              exact absurd (by simpa using hall r hr) hlen
        · have hallf : (rest.all (fun r => r.length = r0.length)) = false := by
            revert hall
            cases rest.all (fun r => r.length = r0.length) <;> simp
          constructor
          · intro _
            refine Or.inr ⟨r0, rest, rfl, ?_⟩
            rw [List.all_eq_true] at hall
            push_neg at hall
            obtain ⟨r, hr, hlen⟩ := hall
            exact ⟨r, hr, by simpa using hlen⟩
          · intro _
            refine ⟨"wrong number of columns", ?_⟩
            rw [loadtxtQ_eq, hm]
            simp [hallf]
  · intro h4
    rw [hload]
    have hne : ∀ l ∈ lines, l ≠ "" := by
      intro l hl heq
      have := h4 l hl
      rw [heq] at this
      exact absurd this (by decide)
    have hfilter : lines.filter (fun l => l ≠ "") = lines := by
      rw [List.filter_eq_self]
      intro l hl
      exact decide_eq_true (hne l hl)
    have hrow : ∀ l ∈ lines, ∃ r, parseLine l = some r ∧ r.length = 4 := by
      intro l hl
      have h := h4 l hl
      rw [hasFourNumericFields, Bool.and_eq_true] at h
      obtain ⟨hlen, hsome⟩ := h
      rw [List.all_eq_true] at hsome
      obtain ⟨r, hr⟩ := mapM_option_isSome parseRat (splitChar ' ' l) (fun f hf => by
        have := hsome f hf
        simp only [decide_eq_true_eq] at this
        exact Option.isSome_iff_exists.mp this)
      refine ⟨r, hr, ?_⟩
      have := (mapM_option_eq_some parseRat (splitChar ' ' l) r hr).2.1
      rw [this]
      simpa using hlen
    obtain ⟨rows, hrows⟩ := mapM_option_isSome parseLine lines
      (fun l hl => (hrow l hl).imp (fun r hr => hr.1))
    have hrows4 : ∀ r ∈ rows, r.length = 4 := by
      intro r hr
      obtain ⟨l, hl, hfl⟩ := (mapM_option_eq_some parseLine lines rows hrows).2.2 r hr
      obtain ⟨r2, hr2, hr2len⟩ := hrow l hl
      rw [hfl] at hr2
      injection hr2 with hr2
      rw [← hr2] at hr2len
      exact hr2len
    rcases rows with - | ⟨r0, rest⟩
    · refine ⟨.arr1 [], ?_⟩
      rw [loadtxtQ_eq, hfilter, hrows]
    · have hall : rest.all (fun r => r.length = r0.length) = true := by
        rw [List.all_eq_true]
        intro r hr
        have h1 := hrows4 r (List.mem_cons_of_mem r0 hr)
        have h0 := hrows4 r0 (List.mem_cons_self r0 rest)
        simp [h1, h0]
      refine ⟨squeezeRows (r0 :: rest), ?_⟩
      rw [loadtxtQ_eq, hfilter, hrows]
      simp [hall]

/-- Witness for C4 (amended): a two-line file of four numeric fields per line
loads successfully. -/
theorem loadtxt_error_characterization_witness :
    ∃ res, load_lidar_from_txt
      (fun p => if p = "cloud.txt" then some ["1 2 3 4", "5 6 7 8"] else none)
      "cloud.txt" = Except.ok res :=
  (loadtxt_error_characterization
      (fun p => if p = "cloud.txt" then some ["1 2 3 4", "5 6 7 8"] else none)
      "cloud.txt" ["1 2 3 4", "5 6 7 8"] (by decide)).2 (by decide)

/-- Counterexample to C4 as stated: a file whose single line has **three**
numeric fields does not split into exactly four numeric fields, yet
`np.loadtxt` succeeds (it accepts any consistent column count), so "fails iff
some line does not split into exactly four numeric fields" is false. -/
theorem loadtxt_three_field_line_ok :
    load_lidar_from_txt (fun p => if p = "cloud.txt" then some ["1.0 2.0 3.0"] else none)
        "cloud.txt" = Except.ok (LoadtxtResult.arr1 [1, 2, 3]) ∧
    hasFourNumericFields "1.0 2.0 3.0" = false ∧
    ¬ ∃ e, load_lidar_from_txt (fun p => if p = "cloud.txt" then some ["1.0 2.0 3.0"] else none)
        "cloud.txt" = Except.error e := by
  refine ⟨by decide, by decide, ?_⟩
  rintro ⟨e, he⟩
  have h1 : load_lidar_from_txt
      (fun p => if p = "cloud.txt" then some ["1.0 2.0 3.0"] else none) "cloud.txt"
      = Except.ok (LoadtxtResult.arr1 [1, 2, 3]) := by decide
  rw [h1] at he
  exact Except.noConfusion he

/-- **C5 (amended).** A point-cloud text file whose entire content is the
single line `"1.0 2.0 3.0 0.5"` loads to the squeezed one-dimensional array
of the four values `[1.0, 2.0, 3.0, 0.5]` (numpy collapses the single row;
no two-dimensional one-row table is produced). -/
theorem single_line_loads_flat_vector :
    load_lidar_from_txt (fun p => if p = "cloud.txt" then some ["1.0 2.0 3.0 0.5"] else none)
      "cloud.txt" = Except.ok (LoadtxtResult.arr1 [1, 2, 3, mkRat 1 2]) := by
  decide

/-- Counterexample to C5 as stated: the same load does **not** return the
one-row, four-column table `[[1.0, 2.0, 3.0, 0.5]]`; it returns the squeezed
1-D vector instead. -/
theorem single_line_not_two_dimensional :
    load_lidar_from_txt (fun p => if p = "cloud.txt" then some ["1.0 2.0 3.0 0.5"] else none)
        "cloud.txt" ≠ Except.ok (LoadtxtResult.arr2 [[1, 2, 3, mkRat 1 2]]) ∧
    load_lidar_from_txt (fun p => if p = "cloud.txt" then some ["1.0 2.0 3.0 0.5"] else none)
        "cloud.txt" = Except.ok (LoadtxtResult.arr1 [1, 2, 3, mkRat 1 2]) := by
  constructor <;> decide

/-! ## Lemmas for the `.h5` export branch -/

theorem flatten_length_of_rect {α : Type} (l : List (List α)) (w : ℕ)
    (h : ∀ r ∈ l, r.length = w) : l.flatten.length = l.length * w := by
  induction l with
  | nil => simp
  | cons r l ih =>
    simp only [List.flatten_cons, List.length_append, List.length_cons]
    rw [h r (List.mem_cons_self r l), ih (fun x hx => h x (List.mem_cons_of_mem r hx))]
    ring

/-- A successfully built lidar DataFrame carries the four column labels. -/
theorem dfOfLidar_cols (fsTxt : String → Option (List String)) (p : String) (df : DF)
    (h : dfOfLidar fsTxt p = .ok df) : df.cols = ["x", "y", "z", "intensity"] := by
  unfold dfOfLidar at h
  rcases hload : load_lidar_from_txt fsTxt p with e | res
  · rw [hload] at h
    exact Except.noConfusion h
  · rw [hload] at h
    rcases res with v | vs | rows
    · simp [dfFromLoadtxt] at h
    · simp [dfFromLoadtxt] at h
    · simp [dfFromLoadtxt] at h
      by_cases hcond : ∀ x ∈ rows, x.length = 4
      · rw [if_pos hcond] at h
        injection h with h
        rw [← h]
      · rw [if_neg hcond] at h
        exact Except.noConfusion h

theorem h5ExportAux_ok (fsTxt : String → Option (List String))
    (fsImg : String → Option (List (List Pixel))) :
    ∀ (ps : List (String × String)) (n : ℕ),
      (∀ pr ∈ ps, (∃ df, dfOfLidar fsTxt pr.1 = .ok df) ∧ (∃ img, fsImg pr.2 = some img)) →
      ∃ entries, h5ExportAux fsTxt fsImg n ps = .ok entries ∧
        entries.length = 2 * ps.length ∧
        ∀ i pr, ps[i]? = some pr →
          ∃ df img, dfOfLidar fsTxt pr.1 = .ok df ∧ fsImg pr.2 = some img ∧
            entries[2 * i]? = some (pairKey (n + i) "lidar", df) ∧
            entries[2 * i + 1]? = some (pairKey (n + i) "image", imageDF img) := by
  intro ps
  induction ps with
  | nil =>
    intro n hps
    refine ⟨[], rfl, rfl, ?_⟩
    intro i pr hi
    simp at hi
  | cons pr0 rest ih =>
    intro n hps
    obtain ⟨⟨df, hdf⟩, ⟨img, himg⟩⟩ := hps pr0 (List.mem_cons_self pr0 rest)
    obtain ⟨entries, he, hlen, hidx⟩ :=
      ih (n + 1) (fun pr hpr => hps pr (List.mem_cons_of_mem pr0 hpr))
    rcases pr0 with ⟨lf, imf⟩
    refine ⟨(pairKey n "lidar", df) :: (pairKey n "image", imageDF img) :: entries, ?_, ?_, ?_⟩
    · simp only [h5ExportAux, hdf, himg, he]
    · simp [hlen]
      ring
    · intro i pr hi
      rcases i with - | i2
      · simp only [List.getElem?_cons_zero, Option.some_inj] at hi
        subst hi
        refine ⟨df, img, hdf, himg, ?_, ?_⟩
        · simp
        · simp
      · simp only [List.getElem?_cons_succ] at hi
        obtain ⟨df2, img2, hdf2, himg2, hg1, hg2⟩ := hidx i2 pr hi
        refine ⟨df2, img2, hdf2, himg2, ?_, ?_⟩
        · have harith : 2 * (i2 + 1) = (2 * i2) + 1 + 1 := by ring
          rw [harith, List.getElem?_cons_succ, List.getElem?_cons_succ, hg1]
          have : n + (i2 + 1) = n + 1 + i2 := by ring
          rw [this]
        · have harith : 2 * (i2 + 1) + 1 = (2 * i2 + 1) + 1 + 1 := by ring
          rw [harith, List.getElem?_cons_succ, List.getElem?_cons_succ, hg2]
          have : n + (i2 + 1) = n + 1 + i2 := by ring
          rw [this]

/-- **C6.** For every pair list whose files decode (lidar file to a 2-D
four-column table, image file to a pixel array), the `.h5` export writes, for
the pair at 0-based position `i` and in input order, exactly two tables under
the `pair_{i}` group: the `lidar` table with columns x, y, z, intensity equal
to the decoded point-cloud frame, and the `image` table with columns R, G, B
holding one row per decoded pixel, with row count height × width. -/
theorem h5_export_structure (fsTxt : String → Option (List String))
    (fsImg : String → Option (List (List Pixel))) (pairs : List (String × String))
    (h : ∀ pr ∈ pairs, (∃ df, dfOfLidar fsTxt pr.1 = .ok df) ∧ (∃ img, fsImg pr.2 = some img)) :
    ∃ entries, h5Export fsTxt fsImg pairs = .ok entries ∧
      entries.length = 2 * pairs.length ∧
      ∀ i pr, pairs[i]? = some pr →
        ∃ df img, dfOfLidar fsTxt pr.1 = .ok df ∧ fsImg pr.2 = some img ∧
          df.cols = ["x", "y", "z", "intensity"] ∧
          entries[2 * i]? = some (pairKey i "lidar", df) ∧
          entries[2 * i + 1]? = some (pairKey i "image", imageDF img) ∧
          (imageDF img).cols = ["R", "G", "B"] ∧
          (∀ w, (∀ row ∈ img, row.length = w) →
            (imageDF img).rows.length = img.length * w) := by
  obtain ⟨entries, he, hlen, hidx⟩ := h5ExportAux_ok fsTxt fsImg pairs 0 h
  refine ⟨entries, he, hlen, ?_⟩
  intro i pr hi
  obtain ⟨df, img, hdf, himg, hg1, hg2⟩ := hidx i pr hi
  rw [Nat.zero_add] at hg1 hg2
  refine ⟨df, img, hdf, himg, dfOfLidar_cols fsTxt pr.1 df hdf, hg1, hg2, rfl, ?_⟩
  intro w hw
  have hrows : (imageDF img).rows = (bgrOf img).flatten := rfl
  rw [hrows, flatten_length_of_rect (bgrOf img) w]
  · rw [bgrOf, List.length_map]
  · intro r hr
    obtain ⟨row, hrow, hmap⟩ := List.mem_map.mp hr
    rw [← hmap, List.length_map]
    exact hw row hrow

/-- Concrete inputs for the C6 witness: one pair, a two-row four-column
point-cloud file and a 1×1 image. -/
def cTxt6 : String → Option (List String) :=
  fun p => if p = "velo/0000000001.txt" then some ["1 2 3 4", "5 6 7 8"] else none

/-- Concrete image store for the C6 witness. -/
def cImg6 : String → Option (List (List Pixel)) :=
  fun p => if p = "cam/0000000001.png" then some [[⟨9, 8, 7⟩]] else none

/-- Concrete pair list for the C6 witness. -/
def cPairs6 : List (String × String) :=
  [("velo/0000000001.txt", "cam/0000000001.png")]

/-- Witness for C6 at the concrete inputs above: the export succeeds and
writes two tables for the single pair. -/
theorem h5_export_structure_witness :
    ∃ entries, h5Export cTxt6 cImg6 cPairs6 = Except.ok entries ∧
      entries.length = 2 * cPairs6.length := by
  obtain ⟨entries, he, hlen, -⟩ := h5_export_structure cTxt6 cImg6 cPairs6
    (fun pr hpr => by
      rcases List.mem_singleton.mp hpr with rfl
      exact ⟨⟨DF.mk ["x", "y", "z", "intensity"] [[1, 2, 3, 4], [5, 6, 7, 8]], by decide⟩,
        ⟨[[⟨9, 8, 7⟩]], by decide⟩⟩)
  exact ⟨entries, he, hlen⟩

/-! ## Lemmas for the file locators -/

theorem bnot_true_iff_false {b : Bool} : (!b) = true ↔ b = false := by
  cases b <;> simp

theorem mem_locateRaw (entries : List (String × List String))
    (dirCond fileCond : String → Bool) (p : String) :
    p ∈ locateRaw entries dirCond fileCond ↔
      ∃ e ∈ entries, ∃ f ∈ e.2, dirCond e.1 = true ∧ fileCond f = true ∧
        p = e.1 ++ "/" ++ f := by
  rw [locateRaw, List.mem_flatMap]
  constructor
  · rintro ⟨e, he, hp⟩
    by_cases hd : dirCond e.1
    · rw [if_pos hd] at hp
      obtain ⟨f, hf, rfl⟩ := List.mem_map.mp hp
      obtain ⟨hfm, hfc⟩ := List.mem_filter.mp hf
      exact ⟨e, he, f, hfm, hd, hfc, rfl⟩
    · rw [if_neg hd] at hp
      exact absurd hp (List.not_mem_nil p)
  · rintro ⟨e, he, f, hf, hd, hfc, rfl⟩
    refine ⟨e, he, ?_⟩
    rw [if_pos hd]
    exact List.mem_map.mpr ⟨f, List.mem_filter.mpr ⟨hf, hfc⟩, rfl⟩

/-- **C2.** For every directory tree, a path is in a locator's result exactly
when it joins a walked directory whose path contains the sensor marker and
the substring `"data"` with a contained file of allowed extension (exact
`.txt` for point clouds, case-insensitive `.png`/`.jpg`/`.jpeg` for images)
whose name does not start with `._`; and both results are sorted in ascending
lexicographic order. -/
theorem locator_membership_sorted (base_dir : String) (fs : FsTree) :
    (∀ p, p ∈ find_velodyne_txt_files base_dir fs ↔
      ∃ e ∈ walkFrom base_dir fs, ∃ f ∈ e.2,
        containsSub e.1 "velodyne_points" = true ∧ containsSub e.1 "data" = true ∧
        f.endsWith ".txt" = true ∧ f.startsWith "._" = false ∧ p = e.1 ++ "/" ++ f) ∧
    List.Sorted (· ≤ ·) (find_velodyne_txt_files base_dir fs) ∧
    (∀ p, p ∈ find_image_files base_dir fs ↔
      ∃ e ∈ walkFrom base_dir fs, ∃ f ∈ e.2,
        containsSub e.1 "image_02" = true ∧ containsSub e.1 "data" = true ∧
        (f.toLower.endsWith ".png" || f.toLower.endsWith ".jpg"
          || f.toLower.endsWith ".jpeg") = true ∧
        f.startsWith "._" = false ∧ p = e.1 ++ "/" ++ f) ∧
    List.Sorted (· ≤ ·) (find_image_files base_dir fs) := by
  refine ⟨?_, List.sorted_insertionSort _ _, ?_, List.sorted_insertionSort _ _⟩
  · intro p
    simp only [find_velodyne_txt_files, sortStrings]
    rw [(List.perm_insertionSort _ _).mem_iff, mem_locateRaw]
    constructor
    · rintro ⟨e, he, f, hf, hd, hfc, rfl⟩
      rw [Bool.and_eq_true] at hd hfc
      exact ⟨e, he, f, hf, hd.1, hd.2, hfc.1, bnot_true_iff_false.mp hfc.2, rfl⟩
    · rintro ⟨e, he, f, hf, h1, h2, h3, h4, rfl⟩
      refine ⟨e, he, f, hf, ?_, ?_, rfl⟩
      · rw [Bool.and_eq_true]; exact ⟨h1, h2⟩
      · rw [Bool.and_eq_true]; exact ⟨h3, bnot_true_iff_false.mpr h4⟩
  · intro p
    simp only [find_image_files, sortStrings]
    rw [(List.perm_insertionSort _ _).mem_iff, mem_locateRaw]
    constructor
    · rintro ⟨e, he, f, hf, hd, hfc, rfl⟩
      rw [Bool.and_eq_true] at hd hfc
      exact ⟨e, he, f, hf, hd.1, hd.2, hfc.1, bnot_true_iff_false.mp hfc.2, rfl⟩
    · rintro ⟨e, he, f, hf, h1, h2, h3, h4, rfl⟩
      refine ⟨e, he, f, hf, ?_, ?_, rfl⟩
      · rw [Bool.and_eq_true]; exact ⟨h1, h2⟩
      · rw [Bool.and_eq_true]; exact ⟨h3, bnot_true_iff_false.mpr h4⟩

/-! ## The export handler contract (C9) and channel order (C10) -/

/-- **C9.** The export button handler offers a download exactly when there is
synchronized data and the selected artifact was fully built; whenever the
build fails at any point, the handler reports the export error with its cause
and no (partial) artifact is offered for download. -/
theorem export_handler_atomicity (fmt : ExportFormat) (fsBytes : String → Option Bytes)
    (fsTxt : String → Option (List String)) (fsImg : String → Option (List (List Pixel)))
    (synced : List (String × String)) :
    ((∃ fn a, exportButtonHandler fmt fsBytes fsTxt fsImg synced =
        ExportOutcome.offerDownload fn a) ↔
      (synced ≠ [] ∧ ∃ a, buildArtifact fmt fsBytes fsTxt fsImg synced = .ok a)) ∧
    (∀ e, buildArtifact fmt fsBytes fsTxt fsImg synced = .error e → synced ≠ [] →
      exportButtonHandler fmt fsBytes fsTxt fsImg synced =
        ExportOutcome.errorExport ("Error exporting data: " ++ e)) := by
  constructor
  · constructor
    · rintro ⟨fn, a, ha⟩
      unfold exportButtonHandler at ha
      by_cases hempty : synced.isEmpty
      · rw [if_pos hempty] at ha
        exact ExportOutcome.noConfusion ha
      · rw [if_neg hempty] at ha
        refine ⟨fun hnil => hempty (by rw [hnil]; rfl), ?_⟩
        rcases hb : buildArtifact fmt fsBytes fsTxt fsImg synced with e | a2
        · rw [hb] at ha
          exact ExportOutcome.noConfusion ha
        · exact ⟨a2, rfl⟩
    · rintro ⟨hne, a, ha⟩
      have hempty : synced.isEmpty = false := by
        rcases synced with - | ⟨x, xs⟩
        · exact absurd rfl hne
        · rfl
      refine ⟨(match fmt with
               | .zipFmt => "synced_data.zip"
               | .h5Fmt => "synced_data.h5"), a, ?_⟩
      simp only [exportButtonHandler, hempty, ha, Bool.false_eq_true, if_false]
      cases fmt <;> rfl
  · intro e he hne
    have hempty : synced.isEmpty = false := by
      rcases synced with - | ⟨x, xs⟩
      · exact absurd rfl hne
      · rfl
    simp [exportButtonHandler, hempty, he]

/-- Unreadable point-cloud store for the C9 witness. -/
def cTxtFail : String → Option (List String) :=
  fun _ => none

/-- Witness for C9 at a concrete failing `.h5` build (the lidar file cannot
be read): the handler reports the error and offers nothing. -/
theorem export_handler_atomicity_witness :
    exportButtonHandler ExportFormat.h5Fmt cBytes cTxtFail cImg6 [("x.txt", "y.png")] =
      ExportOutcome.errorExport ("Error exporting data: No such file: x.txt") :=
  (export_handler_atomicity ExportFormat.h5Fmt cBytes cTxtFail cImg6
      [("x.txt", "y.png")]).2 "No such file: x.txt" (by decide) (by decide)

/-- **C10.** The structured export's image table keeps the decoder's
blue-green-red channel order under the labels R, G, B — no reversal is
applied on export, so the column labeled R holds the decoded blue channel —
while the visualization path reverses each pixel to red-green-blue before
display. -/
theorem image_export_channel_order (fsImg : String → Option (List (List Pixel)))
    (path : String) (img : List (List Pixel)) (h : fsImg path = some img) :
    (imageDF img).cols = ["R", "G", "B"] ∧
    (∀ (j : ℕ) (p : Pixel), img.flatten[j]? = some p →
      (imageDF img).rows[j]? = some [p.b, p.g, p.r]) ∧
    visualizedImage fsImg path =
      some (img.map (fun row => row.map (fun p => [p.r, p.g, p.b]))) := by
  refine ⟨rfl, ?_, ?_⟩
  · intro j p hp
    have hrows : (imageDF img).rows = img.flatten.map (fun p => [p.b, p.g, p.r]) := by
      show flattenTo3 (bgrOf img) = _
      rw [flattenTo3, bgrOf, ← List.map_flatten]
    rw [hrows, List.getElem?_map, hp]
    rfl
  · rw [visualizedImage, cv2_imread, h]
    show some (reverseChannels (bgrOf img)) = _
    congr 1
    rw [reverseChannels, bgrOf, List.map_map]
    apply List.map_congr_left
    intro row hrow
    simp only [Function.comp_apply, List.map_map]
    apply List.map_congr_left
    intro p hp
    rfl

/-- Witness for C10 at a 1×1 image with (r, g, b) = (9, 8, 7): the exported
row is [7, 8, 9] (blue first, under column R), while the visualized pixel is
[9, 8, 7] (red first). -/
theorem image_export_channel_order_witness :
    (imageDF [[(⟨9, 8, 7⟩ : Pixel)]]).rows[0]? = some [7, 8, 9] ∧
    visualizedImage cImg6 "cam/0000000001.png" = some [[[(9 : ℚ), 8, 7]]] := by
  obtain ⟨-, h2, h3⟩ := image_export_channel_order cImg6 "cam/0000000001.png"
    [[⟨9, 8, 7⟩]] (by decide)
  constructor
  · have := h2 0 ⟨9, 8, 7⟩ (by decide)
    simpa using this
  · rw [h3]
    rfl
